import Mathlib

/-!
A verification development for the log retrieval, grouping and labeling
pipeline of `process_miner/log_retriever.py`.

The Python module is shallowly embedded: records are structures of their
string fields plus the two derived optional fields, the insertion-ordered
grouping dictionary is an association list, Python's `str.find(pat) != -1`
is character-level substring search, Python's lexicographic string
comparison is modelled on code points, and the stateful orchestrator
`retrieve_logs` is a function from an explicit file-system state to an
`Except` result whose error value carries the state at the point of abort.

The conversion helpers of `graylog_access.py` (timestamp format validation,
string/datetime conversion and the fetch capability) are not part of the
sources; they are modelled from the spec where marked.
-/

/-- Whether the pattern occurs at the very beginning of the haystack. -/
def matchesHere : List Char → List Char → Bool
  | [], _ => true
  | _ :: _, [] => false
  | p :: ps, h :: hs => p = h && matchesHere ps hs

/-- Whether the pattern occurs anywhere in the haystack. -/
def findSub (pat : List Char) : List Char → Bool
  | [] => pat.isEmpty
  | h :: hs => matchesHere pat (h :: hs) || findSub pat hs

/-- Python `hay.find(pat) != -1`: substring containment test. -/
def containsSubstr (hay pat : String) : Bool :=
  findSub pat.toList hay.toList

/-- One parsed log line (`csv.DictReader` row) with the two fields added by
the labeling steps, absent (`none`) until written. -/
structure Record where
  correlationId : String
  timestamp : String
  message : String
  approach : Option String
  consent : Option String
deriving DecidableEq

/-- A freshly parsed record: only the three exported fields are present. -/
def mkRecord (c t m : String) : Record :=
  { correlationId := c, timestamp := t, message := m
    approach := none, consent := none }

def EXPORTED_FIELDS : List String := ["correlationId", "timestamp", "message"]

def ADDED_FIELDS : List String := ["approach", "consent"]

def APPROACHES_TYPES : List String :=
  ["redirect", "embedded", "OAuth", "Decoupled", "not available"]

def APPROACHES_SIGNAL_WORDS : List String :=
  ["approach=REDIRECT", "approach=EMBEDDED", "approach=OAUTH",
   "approach=DECOUPLED"]

def CONSENT_TYPES : List String :=
  ["GET_ACCOUNTS", "GET_TRANSACTIONS", "not available"]

def CONSENT_SIGNAL_WORDS : List String :=
  ["GET_ACCOUNTS", "GET_TRANSACTIONS", "get account list",
   "get transaction list"]

/-- The per-record body of the scan loop of `_add_consent`, lines 108-136:
the four `find` results are taken, then the four `if` statements run in
order; the pair holds the last value written to the record's `consent`
key together with the `notlabeled` flag.  In the source every fired branch
writes `log_entries[i]['consent']`; at least one branch always fires, so
the record's final consent value is the first component of the final
state. -/
def consentStep (wholemessage : String) : String :=
  let resultGetAccounts1 :=
    containsSubstr wholemessage (CONSENT_SIGNAL_WORDS.getD 0 "")
  let resultGetTransactions1 :=
    containsSubstr wholemessage (CONSENT_SIGNAL_WORDS.getD 1 "")
  let resultGetAccounts2 :=
    containsSubstr wholemessage (CONSENT_SIGNAL_WORDS.getD 2 "")
  let resultGetTransactions2 :=
    containsSubstr wholemessage (CONSENT_SIGNAL_WORDS.getD 3 "")
  let st : String × Bool := ("", true)
  let st := if resultGetAccounts1 || resultGetAccounts2 then
    (CONSENT_TYPES.getD 0 "", false) else st
  let st := if resultGetTransactions1 || resultGetTransactions2 then
    (CONSENT_TYPES.getD 1 "", false) else st
  let st := if !resultGetAccounts1 && !resultGetAccounts2 && st.2 then
    (CONSENT_TYPES.getD 2 "", st.2) else st
  let st := if !resultGetTransactions1 && !resultGetTransactions2 && st.2 then
    (CONSENT_TYPES.getD 2 "", st.2) else st
  st.1

/-- `_add_consent`: writes the consent value onto every record of every
group; the grouping structure itself is returned unchanged. -/
def addConsent (groupedDict : List (String × List Record)) :
    List (String × List Record) :=
  groupedDict.map (fun g =>
    (g.1, g.2.map (fun r => { r with consent := some (consentStep r.message) })))

/-- The per-record body of the scan loop of `_add_approach`, lines 60-88:
the four `find` results are taken, then the eight `if` statements run in
order.  The state pair is the group's current entry in `approach_list`
together with the `unlabeled` flag. -/
def approachStep (st : String × Bool) (wholemessage : String) :
    String × Bool :=
  let resultRedirect :=
    containsSubstr wholemessage (APPROACHES_SIGNAL_WORDS.getD 0 "")
  let resultEmbedded :=
    containsSubstr wholemessage (APPROACHES_SIGNAL_WORDS.getD 1 "")
  let resultOauth :=
    containsSubstr wholemessage (APPROACHES_SIGNAL_WORDS.getD 2 "")
  let resultDecoupled :=
    containsSubstr wholemessage (APPROACHES_SIGNAL_WORDS.getD 3 "")
  let st := if resultRedirect && st.2 then
    (APPROACHES_TYPES.getD 0 "", false) else st
  let st := if resultEmbedded && st.2 then
    (APPROACHES_TYPES.getD 1 "", false) else st
  let st := if !resultRedirect && st.2 then
    (APPROACHES_TYPES.getD 4 "", st.2) else st
  let st := if !resultEmbedded && st.2 then
    (APPROACHES_TYPES.getD 4 "", st.2) else st
  let st := if resultOauth && st.2 then
    (APPROACHES_TYPES.getD 2 "", false) else st
  let st := if resultDecoupled && st.2 then
    (APPROACHES_TYPES.getD 3 "", false) else st
  let st := if !resultOauth && st.2 then
    (APPROACHES_TYPES.getD 4 "", st.2) else st
  let st := if !resultDecoupled && st.2 then
    (APPROACHES_TYPES.getD 4 "", st.2) else st
  st

/-- The label a whole group receives in `_add_approach`: the scan loop over
the group's entries, starting unlabeled.  The initial first component is
never observable: a group produced by the grouper is non-empty, and the
first iteration always overwrites it. -/
def approachOfGroup (logEntries : List Record) : String :=
  (logEntries.foldl (fun st r => approachStep st r.message) ("", true)).1

/-- `_add_approach`: computes each group's label and writes it onto every
record of the group; the grouping structure itself is returned unchanged. -/
def addApproach (groupedDict : List (String × List Record)) :
    List (String × List Record) :=
  groupedDict.map (fun g =>
    (g.1, g.2.map (fun r => { r with approach := some (approachOfGroup g.2) })))

/-- The first approach-table entry, in table order, whose signal word occurs
in the message; `none` when no signal word occurs. -/
def approachOfMessage (m : String) : Option String :=
  if containsSubstr m "approach=REDIRECT" then some "redirect"
  else if containsSubstr m "approach=EMBEDDED" then some "embedded"
  else if containsSubstr m "approach=OAUTH" then some "OAuth"
  else if containsSubstr m "approach=DECOUPLED" then some "Decoupled"
  else none

/-- Python's lexicographic `<` on strings, on the underlying code points:
a shorter string precedes any extension of it, and the first differing
position decides. -/
def strLtAux : List Char → List Char → Bool
  | _, [] => false
  | [], _ :: _ => true
  | a :: as, b :: bs =>
      a.toNat < b.toNat || (a.toNat = b.toNat && strLtAux as bs)

/-- Python `s < t` on strings. -/
def strLt (s t : String) : Bool := strLtAux s.toList t.toList

/-- Python `s <= t` on strings: the order the `sorted` builtin produces on
the timestamp keys. -/
def tsLe (s t : String) : Bool := !(strLt t s)

/-- The sortedness relation on records used throughout: ascending
timestamps under Python string comparison. -/
def tsLeP (a b : Record) : Prop := tsLe a.timestamp b.timestamp = true

instance : DecidableRel tsLeP := fun a b => by unfold tsLeP; infer_instance

/-- The insertion step of the stable ascending sort modelling Python's
`sorted(reader, key=lambda row: row['timestamp'])`: the new record goes in
front of the first position whose timestamp it does not exceed, hence
behind all earlier equal timestamps — the stability Python guarantees. -/
def orderedInsertByTs (r : Record) : List Record → List Record
  | [] => [r]
  | x :: xs => if tsLe r.timestamp x.timestamp then r :: x :: xs
               else x :: orderedInsertByTs r xs

/-- Stable ascending sort by the `timestamp` field.  Python's `sorted` is a
stable sort by the same key, and any two stable sorts under the same total
preorder return the same list, so this models line 216 of the source. -/
def sortByTimestamp : List Record → List Record
  | [] => []
  | x :: xs => orderedInsertByTs x (sortByTimestamp xs)

/-- Appending a record under its correlation id into the insertion-ordered
grouping dictionary: `grouped_lines[correlation_id].append(line)` over a
`defaultdict(list)` — an existing key keeps its position and grows at the
end; a new key is appended at the end of the dictionary. -/
def insertGrouped (g : List (String × List Record)) (cid : String)
    (line : Record) : List (String × List Record) :=
  match g with
  | [] => [(cid, [line])]
  | (k, rs) :: rest =>
      if k = cid then (k, rs ++ [line]) :: rest
      else (k, rs) :: insertGrouped rest cid line

/-- The loop body of `_group_by_correlation_id`: a line with an empty
correlation id is dropped (logged, not an error), any other line is
appended under its id. -/
def groupStep (g : List (String × List Record)) (line : Record) :
    List (String × List Record) :=
  if line.correlationId = "" then g
  else insertGrouped g line.correlationId line

/-- `_group_by_correlation_id`, lines 226-236 of the source. -/
def groupByCorrelationId (lines : List Record) :
    List (String × List Record) :=
  lines.foldl groupStep []

/-- `_sanitize_filename`, lines 42-46: Windows reserves ':', so every
occurrence is replaced by '_' (the pattern is a single character, so
Python's `str.replace` is a character map). -/
def sanitizeFilename (filename : String) : String :=
  ⟨filename.data.map (fun c => if c = ':' then '_' else c)⟩

/-- One raw fetched line, already split at the delimiter.  `csv.DictReader`
reads the first line as the header and keys every further line by the
header names; the exported field order is `EXPORTED_FIELDS`, so a data row
is `[correlationId, timestamp, message]`, and a short row leaves the
missing fields empty. -/
def parseRow (row : List String) : Record :=
  mkRecord (row.getD 0 "") (row.getD 1 "") (row.getD 2 "")

/-- `_process_csv_lines`, lines 211-224: reads the header, sorts the data
records ascending by timestamp, groups them, and returns the header
extended by `ADDED_FIELDS`, the grouping, and `sorted_list[-1]['timestamp']`.
Indexing `sorted_list[-1]` raises `IndexError` when there is no data
record, and `reader.fieldnames + ADDED_FIELDS` raises on an empty line
list; either abort is `none` here. -/
def processCsvLines (lines : List (List String)) :
    Option (List String × List (String × List Record) × String) :=
  match lines with
  | [] => none
  | header :: rows =>
      let sortedList := sortByTimestamp (rows.map parseRow)
      let groupedLines := groupByCorrelationId sortedList
      match sortedList.getLast? with
      | none => none
      | some last =>
          some (header ++ ADDED_FIELDS, groupedLines, last.timestamp)

/-- `_get_advanced_timestamp`, lines 28-29: datetimes are modelled as
milliseconds since the epoch, so `timedelta(milliseconds=1)` is `+ 1`. -/
def getAdvancedTimestamp (timestamp : Nat) : Nat := timestamp + 1

/-- Modelled from the spec: `graylog_access.timestamp_format_is_valid` is
not among the sources.  The watermark file must hold a single timestamp in
the fixed textual format; the format is modelled as a non-empty decimal
string of milliseconds since the epoch. -/
def timestampFormatIsValid (s : String) : Bool :=
  !s.data.isEmpty && s.data.all Char.isDigit

/-- Modelled from the spec: `graylog_access.get_datetime_from_timestamp` is
not among the sources.  It converts valid stored text to the datetime it
denotes — here, decimal text to milliseconds. -/
def getDatetimeFromTimestamp (s : String) : Nat :=
  s.data.foldl (fun n c => n * 10 + (c.toNat - 48)) 0

/-- Modelled from the spec: the textual rendering of a datetime, the
inverse of `getDatetimeFromTimestamp` on valid text. -/
def timestampText (t : Nat) : String := ⟨Nat.toDigits 10 t⟩

/-- The pieces of on-disk state `retrieve_logs` touches inside the target
directory: the content of the watermark file (`none` when the file is
missing) and the per-group CSV files written so far, each a filename paired
with the group serialized into it. -/
structure TargetDir where
  watermark : Option String
  csvFiles : List (String × List Record)
deriving DecidableEq

/-- `_load_last_included_timestamp`, lines 186-203: a present and
format-valid watermark file yields its datetime; a missing or invalid one
falls back to the epoch-zero default (logged, never fatal). -/
def loadLastIncludedTimestamp (dir : TargetDir) : Nat :=
  match dir.watermark with
  | some s =>
      if timestampFormatIsValid s then getDatetimeFromTimestamp s else 0
  | none => 0

/-- The filename `_store_logs_as_csv` chooses for a group, lines 241-243:
the group's first (earliest) timestamp, an underscore, the correlation id
and the `.csv` extension, the whole string sanitized.  `log_entries[0]` on
the never-empty groups of the grouper is `headD`. -/
def storeFilename (correlationId : String) (logEntries : List Record) :
    String :=
  sanitizeFilename ((logEntries.headD (mkRecord "" "" "")).timestamp
    ++ "_" ++ correlationId ++ ".csv")

/-- `_store_logs_as_csv`, lines 238-249, with an explicit failure oracle
for the file write: `writeOk` says whether opening and writing the given
filename succeeds.  Groups are written in dictionary order; a failing
write raises, aborting with the state written so far (the error value).
The serialized content is modelled by the group's record list. -/
def storeLogsAsCsv (writeOk : String → Bool) (dir : TargetDir) :
    List (String × List Record) → Except TargetDir TargetDir
  | [] => Except.ok dir
  | (correlationId, logEntries) :: rest =>
      let filename := storeFilename correlationId logEntries
      if writeOk filename then
        storeLogsAsCsv writeOk
          { dir with csvFiles := dir.csvFiles ++ [(filename, logEntries)] }
          rest
      else Except.error dir

/-- `LogRetriever.retrieve_logs`, lines 156-178.  The fetch capability
`graylog_access.get_log_entries` is a parameter taking the advanced start
timestamp (the exported field list is fixed) and returning raw split
lines.  An unhandled error — the `IndexError` of `_process_csv_lines` on a
fetch without data rows, or a failing file write — aborts the run; the
error value is the on-disk state at the abort. -/
def retrieveLogs (fetchLines : Nat → List (List String))
    (writeOk : String → Bool) (dir : TargetDir) :
    Except TargetDir TargetDir :=
  let lastRetrievedTimestamp := loadLastIncludedTimestamp dir
  let firstTimestamp := getAdvancedTimestamp lastRetrievedTimestamp
  let lines := fetchLines firstTimestamp
  if lines.isEmpty then Except.ok dir
  else
    match processCsvLines lines with
    | none => Except.error dir
    | some (_fields, groupedLines, lastTimestamp) =>
        let labeled := addConsent (addApproach groupedLines)
        match storeLogsAsCsv writeOk dir labeled with
        | Except.error e => Except.error e
        | Except.ok dir2 =>
            Except.ok { dir2 with watermark := some lastTimestamp }

/-- The empty target directory: no watermark file, no CSV files. -/
def emptyDir : TargetDir := { watermark := none, csvFiles := [] }

/-- A concrete fetch result: header plus three data rows out of
chronological order, with two correlation ids. -/
def exampleLines : List (List String) :=
  [["correlationId", "timestamp", "message"],
   ["A", "100", "start"],
   ["A", "300", "end"],
   ["B", "200", "mid"]]

/-- A record as it looks after both labeling steps found no signal word. -/
def naRec (c t m : String) : Record :=
  { correlationId := c, timestamp := t, message := m
    approach := some "not available", consent := some "not available" }

/-- The three original exported fields of a record, the frame both
labeling steps must leave intact. -/
def baseFields (r : Record) : String × String × String :=
  (r.correlationId, r.timestamp, r.message)

lemma consentStep_eq (m : String) :
    consentStep m =
      if containsSubstr m "GET_TRANSACTIONS"
          || containsSubstr m "get transaction list" then "GET_TRANSACTIONS"
      else if containsSubstr m "GET_ACCOUNTS"
          || containsSubstr m "get account list" then "GET_ACCOUNTS"
      else "not available" := by
  simp only [consentStep,
    show CONSENT_SIGNAL_WORDS.getD 0 "" = "GET_ACCOUNTS" from rfl,
    show CONSENT_SIGNAL_WORDS.getD 1 "" = "GET_TRANSACTIONS" from rfl,
    show CONSENT_SIGNAL_WORDS.getD 2 "" = "get account list" from rfl,
    show CONSENT_SIGNAL_WORDS.getD 3 "" = "get transaction list" from rfl,
    show CONSENT_TYPES.getD 0 "" = "GET_ACCOUNTS" from rfl,
    show CONSENT_TYPES.getD 1 "" = "GET_TRANSACTIONS" from rfl,
    show CONSENT_TYPES.getD 2 "" = "not available" from rfl]
  cases containsSubstr m "GET_ACCOUNTS" <;>
    cases containsSubstr m "GET_TRANSACTIONS" <;>
      cases containsSubstr m "get account list" <;>
        cases containsSubstr m "get transaction list" <;> simp

/-- C1 (corrected): the transactions check of `_add_consent` runs after and
independently of the accounts check, so a transactions keyword always wins:
each record's consent becomes `GET_TRANSACTIONS` when a transactions signal
word occurs in its message, otherwise `GET_ACCOUNTS` when an accounts
signal word occurs, otherwise `not available`. -/
theorem c1_consent_labeling (g : List (String × List Record)) :
    addConsent g = g.map (fun p => (p.1, p.2.map (fun r =>
      { r with consent := some (
        if containsSubstr r.message "GET_TRANSACTIONS"
            || containsSubstr r.message "get transaction list" then
          "GET_TRANSACTIONS"
        else if containsSubstr r.message "GET_ACCOUNTS"
            || containsSubstr r.message "get account list" then
          "GET_ACCOUNTS"
        else "not available") }))) := by
  simp only [addConsent, consentStep_eq]

/-- C1 counterexample: a record whose message holds both a get_accounts and
a get_transactions signal word is labeled `GET_TRANSACTIONS`, not
`GET_ACCOUNTS` as the claim states. -/
theorem c1_counterexample :
    addConsent [("A", [mkRecord "A" "100" "GET_ACCOUNTS GET_TRANSACTIONS"])]
      = [("A", [{ correlationId := "A", timestamp := "100"
                  message := "GET_ACCOUNTS GET_TRANSACTIONS"
                  approach := none, consent := some "GET_TRANSACTIONS" }])]
    ∧ ("GET_TRANSACTIONS" : String) ≠ "GET_ACCOUNTS" := by
  refine ⟨by decide, by decide⟩

lemma approachStep_labeled (l : String) (m : String) :
    approachStep (l, false) m = (l, false) := by
  simp [approachStep]

lemma approachStep_unlabeled (l : String) (m : String) :
    approachStep (l, true) m =
      match approachOfMessage m with
      | some a => (a, false)
      | none => ("not available", true) := by
  simp only [approachStep, approachOfMessage,
    show APPROACHES_SIGNAL_WORDS.getD 0 "" = "approach=REDIRECT" from rfl,
    show APPROACHES_SIGNAL_WORDS.getD 1 "" = "approach=EMBEDDED" from rfl,
    show APPROACHES_SIGNAL_WORDS.getD 2 "" = "approach=OAUTH" from rfl,
    show APPROACHES_SIGNAL_WORDS.getD 3 "" = "approach=DECOUPLED" from rfl,
    show APPROACHES_TYPES.getD 0 "" = "redirect" from rfl,
    show APPROACHES_TYPES.getD 1 "" = "embedded" from rfl,
    show APPROACHES_TYPES.getD 2 "" = "OAuth" from rfl,
    show APPROACHES_TYPES.getD 3 "" = "Decoupled" from rfl,
    show APPROACHES_TYPES.getD 4 "" = "not available" from rfl]
  cases containsSubstr m "approach=REDIRECT" <;>
    cases containsSubstr m "approach=EMBEDDED" <;>
      cases containsSubstr m "approach=OAUTH" <;>
        cases containsSubstr m "approach=DECOUPLED" <;> simp

lemma foldl_approachStep_labeled (l : String) (post : List Record) :
    post.foldl (fun st r => approachStep st r.message) (l, false)
      = (l, false) := by
  induction post with
  | nil => rfl
  | cons p ps ih => simpa [approachStep_labeled] using ih

lemma foldl_approachStep_unmatched (l : String) (pre : List Record)
    (hpre : ∀ p ∈ pre, approachOfMessage p.message = none) :
    (pre.foldl (fun st r => approachStep st r.message) (l, true)).2
      = true ∧
    (pre.foldl (fun st r => approachStep st r.message) (l, true)).1
      = (if pre.isEmpty then l else "not available") := by
  induction pre generalizing l with
  | nil => exact ⟨rfl, rfl⟩
  | cons p ps ih =>
      have hp : approachOfMessage p.message = none := hpre p (by simp)
      have hrest : ∀ q ∈ ps, approachOfMessage q.message = none :=
        fun q hq => hpre q (by simp [hq])
      have hstep : approachStep (l, true) p.message
          = ("not available", true) := by
        rw [approachStep_unlabeled, hp]
      have := ih "not available" hrest
      constructor
      · simpa [List.foldl_cons, hstep] using this.1
      · cases ps with
        | nil => simp [List.foldl_cons, hstep]
        | cons q qs => simpa [List.foldl_cons, hstep] using this.2

lemma approachOfGroup_first_match (pre post : List Record) (r : Record)
    (a : String)
    (hpre : ∀ p ∈ pre, approachOfMessage p.message = none)
    (hr : approachOfMessage r.message = some a) :
    approachOfGroup (pre ++ r :: post) = a := by
  unfold approachOfGroup
  rw [List.foldl_append]
  have h2 := (foldl_approachStep_unmatched "" pre hpre).1
  set st := pre.foldl (fun st r => approachStep st r.message) ("", true)
    with hst
  have : st = (st.1, true) := by
    rw [← h2]
  rw [this, List.foldl_cons, approachStep_unlabeled, hr,
    foldl_approachStep_labeled]

/-- C2: if the first record of a group whose message holds any approach
signal word holds several of them, the group is labeled with the matching
table entry of lowest table index — `approachOfMessage` scans the table in
table order [redirect, embedded, OAuth, Decoupled] — and every record of
the group receives that label. -/
theorem c2_approach_table_precedence (cid : String)
    (pre post : List Record) (r : Record) (a : String)
    (hpre : ∀ p ∈ pre, approachOfMessage p.message = none)
    (hr : approachOfMessage r.message = some a) :
    addApproach [(cid, pre ++ r :: post)]
      = [(cid, (pre ++ r :: post).map
          (fun e => { e with approach := some a }))] := by
  simp [addApproach, approachOfGroup_first_match pre post r a hpre hr]

/-- C2 witness: the spec's literal example — a first message holding both
`approach=OAUTH` and `approach=EMBEDDED` yields the label `embedded`. -/
theorem c2_witness :
    addApproach [("A", [mkRecord "A" "100" "approach=OAUTH approach=EMBEDDED"])]
      = [("A", [{ correlationId := "A", timestamp := "100"
                  message := "approach=OAUTH approach=EMBEDDED"
                  approach := some "embedded", consent := none }])] := by
  have h := c2_approach_table_precedence "A" [] []
    (mkRecord "A" "100" "approach=OAUTH approach=EMBEDDED") "embedded"
    (by intro p hp; cases hp) (by decide)
  simpa [mkRecord] using h

/-- C3: once some record of a group has matched an approach signal word,
no later record changes the group's label: the records following the first
match — even records matching a signal word of lower table index — do not
influence the label `_add_approach` assigns. -/
theorem c3_first_match_locks (pre post post' : List Record) (r : Record)
    (a : String)
    (hpre : ∀ p ∈ pre, approachOfMessage p.message = none)
    (hr : approachOfMessage r.message = some a) :
    approachOfGroup (pre ++ r :: post)
      = approachOfGroup (pre ++ r :: post') := by
  rw [approachOfGroup_first_match pre post r a hpre hr,
    approachOfGroup_first_match pre post' r a hpre hr]

/-- C3 witness: a group whose first record matched `OAuth` keeps the label
`OAuth` even though a later record holds the higher-precedence signal word
`approach=REDIRECT`. -/
theorem c3_witness :
    approachOfGroup
        [mkRecord "A" "100" "approach=OAUTH",
         mkRecord "A" "200" "approach=REDIRECT"]
      = approachOfGroup [mkRecord "A" "100" "approach=OAUTH"]
    ∧ approachOfGroup [mkRecord "A" "100" "approach=OAUTH"] = "OAuth" := by
  constructor
  · exact c3_first_match_locks []
      [mkRecord "A" "200" "approach=REDIRECT"] []
      (mkRecord "A" "100" "approach=OAUTH") "OAuth"
      (by intro p hp; cases hp) (by decide)
  · decide

lemma strLtAux_irrefl (s : List Char) : strLtAux s s = false := by
  induction s with
  | nil => rfl
  | cons a as ih => simp [strLtAux, ih]

lemma strLtAux_asymm (s t : List Char) (h1 : strLtAux s t = true)
    (h2 : strLtAux t s = true) : False := by
  induction s generalizing t with
  | nil => cases t <;> simp [strLtAux] at h1 h2
  | cons a as ih =>
      cases t with
      | nil => simp [strLtAux] at h1
      | cons b bs =>
          simp only [strLtAux, Bool.or_eq_true, Bool.and_eq_true,
            decide_eq_true_eq] at h1 h2
          rcases h1 with h1 | ⟨e1, p1⟩
          · rcases h2 with h2 | ⟨e2, p2⟩
            · exact Nat.lt_asymm h1 h2
            · exact absurd (e2 ▸ h1) (Nat.lt_irrefl _)
          · rcases h2 with h2 | ⟨e2, p2⟩
            · exact absurd (e1 ▸ h2) (Nat.lt_irrefl _)
            · exact ih bs p1 p2

lemma strLtAux_cotrans (s t : List Char) (h : strLtAux s t = true) :
    ∀ u : List Char, strLtAux s u = true ∨ strLtAux u t = true := by
  induction s generalizing t with
  | nil =>
      cases t with
      | nil => simp [strLtAux] at h
      | cons b bs =>
          intro u
          cases u with
          | nil => exact Or.inr h
          | cons c cs => exact Or.inl (by simp [strLtAux])
  | cons a as ih =>
      cases t with
      | nil => simp [strLtAux] at h
      | cons b bs =>
          intro u
          cases u with
          | nil => exact Or.inr rfl
          | cons c cs =>
              simp only [strLtAux, Bool.or_eq_true, Bool.and_eq_true,
                decide_eq_true_eq] at h ⊢
              rcases h with h | ⟨e, p⟩
              · rcases Nat.lt_or_ge a.toNat c.toNat with hac | hca
                · exact Or.inl (Or.inl hac)
                · exact Or.inr (Or.inl (Nat.lt_of_le_of_lt hca h))
              · rcases Nat.lt_trichotomy a.toNat c.toNat with hac | hac | hac
                · exact Or.inl (Or.inl hac)
                · rcases ih bs p cs with h1 | h1
                  · exact Or.inl (Or.inr ⟨hac, h1⟩)
                  · exact Or.inr (Or.inr ⟨hac ▸ e, h1⟩)
                · exact Or.inr (Or.inl (e ▸ hac))

lemma tsLe_refl (s : String) : tsLe s s = true := by
  simp [tsLe, strLt, strLtAux_irrefl]

lemma tsLe_total (s t : String) : tsLe s t = true ∨ tsLe t s = true := by
  unfold tsLe strLt
  cases h1 : strLtAux t.toList s.toList with
  | false => exact Or.inl (by simp)
  | true =>
      cases h2 : strLtAux s.toList t.toList with
      | false => exact Or.inr (by simp)
      | true => exact (strLtAux_asymm _ _ h1 h2).elim

lemma tsLe_trans (s t u : String) (h1 : tsLe s t = true)
    (h2 : tsLe t u = true) : tsLe s u = true := by
  simp only [tsLe, Bool.not_eq_true', strLt] at h1 h2 ⊢
  by_contra hus
  rw [Bool.not_eq_false] at hus
  rcases strLtAux_cotrans u.toList s.toList hus t.toList with hut | hts
  · exact Bool.noConfusion (hut ▸ h2)
  · exact Bool.noConfusion (hts ▸ h1)

lemma tsLeP_refl (a : Record) : tsLeP a a := tsLe_refl _

lemma tsLeP_total (a b : Record) : tsLeP a b ∨ tsLeP b a := tsLe_total _ _

lemma tsLeP_trans {a b c : Record} (h1 : tsLeP a b) (h2 : tsLeP b c) :
    tsLeP a c := tsLe_trans _ _ _ h1 h2

lemma orderedInsertByTs_perm (r : Record) (l : List Record) :
    List.Perm (orderedInsertByTs r l) (r :: l) := by
  induction l with
  | nil => exact List.Perm.refl _
  | cons x xs ih =>
      by_cases h : tsLe r.timestamp x.timestamp = true
      · simp [orderedInsertByTs, h]
      · simp only [orderedInsertByTs, h, if_false]
        exact (ih.cons x).trans (List.Perm.swap r x xs)

lemma sortByTimestamp_perm (l : List Record) :
    List.Perm (sortByTimestamp l) l := by
  induction l with
  | nil => exact List.Perm.refl _
  | cons x xs ih =>
      exact (orderedInsertByTs_perm x (sortByTimestamp xs)).trans (ih.cons x)

lemma mem_orderedInsertByTs {r y : Record} {l : List Record}
    (h : y ∈ orderedInsertByTs r l) : y = r ∨ y ∈ l := by
  simpa using (orderedInsertByTs_perm r l).mem_iff.mp h

lemma sorted_orderedInsertByTs (r : Record) (l : List Record)
    (hl : l.Pairwise tsLeP) :
    (orderedInsertByTs r l).Pairwise tsLeP := by
  induction l with
  | nil => simp [orderedInsertByTs]
  | cons x xs ih =>
      rcases List.pairwise_cons.mp hl with ⟨hx, hxs⟩
      by_cases h : tsLe r.timestamp x.timestamp = true
      · simp only [orderedInsertByTs, h, if_true]
        refine List.pairwise_cons.mpr ⟨?_, hl⟩
        intro y hy
        rcases List.mem_cons.mp hy with rfl | hy
        · exact h
        · exact tsLeP_trans h (hx y hy)
      · simp only [orderedInsertByTs, h, if_false]
        refine List.pairwise_cons.mpr ⟨?_, ih hxs⟩
        intro y hy
        rcases mem_orderedInsertByTs hy with rfl | hy
        · rcases tsLeP_total x y with hxy | hyx
          · exact hxy
          · exact absurd hyx h
        · exact hx y hy

lemma sortByTimestamp_sorted (l : List Record) :
    (sortByTimestamp l).Pairwise tsLeP := by
  induction l with
  | nil => simp [sortByTimestamp]
  | cons x xs ih => exact sorted_orderedInsertByTs x (sortByTimestamp xs) ih

lemma mem_insertGrouped (g : List (String × List Record)) (cid : String)
    (line : Record) (p : String × List Record)
    (hp : p ∈ insertGrouped g cid line) :
    p ∈ g ∨ (p.1 = cid ∧ p.2 = [line])
      ∨ (p.1 = cid ∧ ∃ v, (cid, v) ∈ g ∧ p.2 = v ++ [line]) := by
  induction g with
  | nil =>
      simp only [insertGrouped, List.mem_singleton] at hp
      exact Or.inr (Or.inl (by simp [hp]))
  | cons q rest ih =>
      obtain ⟨k, rs⟩ := q
      by_cases hk : k = cid
      · rw [show insertGrouped ((k, rs) :: rest) cid line
            = (k, rs ++ [line]) :: rest from by simp [insertGrouped, hk]] at hp
        rcases List.mem_cons.mp hp with hp1 | hp1
        · refine Or.inr (Or.inr ?_)
          rw [hp1]
          refine ⟨hk, rs, ?_, rfl⟩
          rw [← hk]
          exact List.mem_cons_self _ _
        · exact Or.inl (List.mem_cons_of_mem _ hp1)
      · rw [show insertGrouped ((k, rs) :: rest) cid line
            = (k, rs) :: insertGrouped rest cid line from by
              simp [insertGrouped, hk]] at hp
        rcases List.mem_cons.mp hp with hp1 | hp1
        · refine Or.inl ?_
          rw [hp1]
          exact List.mem_cons_self _ _
        · rcases ih hp1 with h | ⟨h1, h2⟩ | ⟨h1, v, hv, h2⟩
          · exact Or.inl (List.mem_cons_of_mem _ h)
          · exact Or.inr (Or.inl ⟨h1, h2⟩)
          · exact Or.inr (Or.inr ⟨h1, v, List.mem_cons_of_mem _ hv, h2⟩)

lemma groupByCorrelationId_spec (lines : List Record) :
    ∀ p ∈ groupByCorrelationId lines,
      p.1 ≠ "" ∧ p.2 ≠ [] ∧ (∀ r ∈ p.2, r.correlationId = p.1)
        ∧ p.2.Sublist lines := by
  unfold groupByCorrelationId
  induction lines using List.reverseRecOn with
  | nil => intro p hp; cases hp
  | append_singleton ls x ih =>
      intro p hp
      rw [List.foldl_append, List.foldl_cons, List.foldl_nil] at hp
      unfold groupStep at hp
      by_cases hx : x.correlationId = ""
      · rw [if_pos hx] at hp
        obtain ⟨h1, h2, h3, h4⟩ := ih p hp
        exact ⟨h1, h2, h3, h4.trans (List.sublist_append_left ls [x])⟩
      · rw [if_neg hx] at hp
        rcases mem_insertGrouped _ _ _ p hp with h | ⟨h1, h2⟩ | ⟨h1, v, hv, h2⟩
        · obtain ⟨h1, h2, h3, h4⟩ := ih p h
          exact ⟨h1, h2, h3, h4.trans (List.sublist_append_left ls [x])⟩
        · refine ⟨h1 ▸ hx, by simp [h2], ?_, ?_⟩
          · intro r hr
            rw [h2, List.mem_singleton] at hr
            rw [hr, h1]
          · rw [h2]
            exact List.sublist_append_right ls [x]
        · obtain ⟨g1, g2, g3, g4⟩ := ih (x.correlationId, v) hv
          refine ⟨h1 ▸ hx, by simp [h2], ?_, ?_⟩
          · intro r hr
            rw [h2, List.mem_append, List.mem_singleton] at hr
            rcases hr with hr | rfl
            · exact (g3 r hr).trans (h1.symm)
            · exact h1.symm ▸ rfl
          · rw [h2]
            exact g4.append (List.Sublist.refl [x])

/-- C6: for a timestamp-sorted input, every group the grouper produces is
non-empty, is keyed by a non-empty correlation id, contains only records
carrying exactly that correlation id (hence no record with an empty or
missing one), and lists its records in ascending timestamp order. -/
theorem c6_grouping_invariants (lines : List Record)
    (hsorted : lines.Pairwise tsLeP) :
    ∀ p ∈ groupByCorrelationId lines,
      p.2 ≠ [] ∧ p.1 ≠ "" ∧ (∀ r ∈ p.2, r.correlationId = p.1)
        ∧ p.2.Pairwise tsLeP := by
  intro p hp
  obtain ⟨h1, h2, h3, h4⟩ := groupByCorrelationId_spec lines p hp
  exact ⟨h2, h1, h3, List.Pairwise.sublist h4 hsorted⟩

/-- C6 witness: on a concrete sorted input holding a record with an empty
correlation id, the group keyed `A` is non-empty, carries a non-empty key,
holds only records with correlation id `A`, and is in ascending timestamp
order. -/
theorem c6_witness :
    ([mkRecord "A" "100" "m1", mkRecord "A" "400" "m4"] : List Record) ≠ []
    ∧ ("A" : String) ≠ ""
    ∧ (mkRecord "A" "100" "m1").correlationId = "A"
    ∧ (mkRecord "A" "400" "m4").correlationId = "A"
    ∧ List.Pairwise tsLeP
        [mkRecord "A" "100" "m1", mkRecord "A" "400" "m4"] := by
  have h := c6_grouping_invariants
    [mkRecord "A" "100" "m1", mkRecord "" "200" "m2",
     mkRecord "B" "300" "m3", mkRecord "A" "400" "m4"] (by decide)
    ("A", [mkRecord "A" "100" "m1", mkRecord "A" "400" "m4"]) (by decide)
  exact ⟨h.1, h.2.1, h.2.2.1 _ (by decide), h.2.2.1 _ (by decide),
    h.2.2.2⟩

lemma storeLogsAsCsv_error_watermark (writeOk : String → Bool)
    (dir : TargetDir) (gs : List (String × List Record)) (dir' : TargetDir)
    (h : storeLogsAsCsv writeOk dir gs = Except.error dir') :
    dir'.watermark = dir.watermark := by
  induction gs generalizing dir with
  | nil => exact Except.noConfusion h
  | cons q rest ih =>
      obtain ⟨cid, logEntries⟩ := q
      by_cases hw : writeOk (storeFilename cid logEntries) = true
      · simp only [storeLogsAsCsv, hw, if_true] at h
        exact ih { dir with
          csvFiles := dir.csvFiles
            ++ [(storeFilename cid logEntries, logEntries)] } h
      · simp only [storeLogsAsCsv, hw, if_false] at h
        cases h
        rfl

lemma storeLogsAsCsv_ok (writeOk : String → Bool) (dir : TargetDir)
    (gs : List (String × List Record)) (dir' : TargetDir)
    (h : storeLogsAsCsv writeOk dir gs = Except.ok dir') :
    dir'.watermark = dir.watermark
    ∧ (∀ x ∈ dir.csvFiles, x ∈ dir'.csvFiles)
    ∧ (∀ p ∈ gs, (storeFilename p.1 p.2, p.2) ∈ dir'.csvFiles) := by
  induction gs generalizing dir with
  | nil =>
      cases h
      exact ⟨rfl, fun x hx => hx, fun p hp => absurd hp (List.not_mem_nil p)⟩
  | cons q rest ih =>
      obtain ⟨cid, logEntries⟩ := q
      by_cases hw : writeOk (storeFilename cid logEntries) = true
      · simp only [storeLogsAsCsv, hw, if_true] at h
        obtain ⟨h1, h2, h3⟩ := ih { dir with
          csvFiles := dir.csvFiles
            ++ [(storeFilename cid logEntries, logEntries)] } h
        refine ⟨h1, ?_, ?_⟩
        · intro x hx
          exact h2 x (by simp [hx])
        · intro p hp
          rcases List.mem_cons.mp hp with rfl | hp
          · exact h2 _ (by simp)
          · exact h3 p hp
      · simp only [storeLogsAsCsv, hw, if_false] at h
        exact Except.noConfusion h

lemma pairwise_le_getLast (l : List Record) (hl : l.Pairwise tsLeP)
    (h : l ≠ []) : ∀ r ∈ l, tsLeP r (l.getLast h) := by
  induction l with
  | nil => exact absurd rfl h
  | cons x xs ih =>
      intro r hr
      cases xs with
      | nil =>
          rcases List.mem_singleton.mp hr with rfl
          exact tsLeP_refl r
      | cons y ys =>
          rcases List.pairwise_cons.mp hl with ⟨hx, hxs⟩
          rw [List.getLast_cons (by simp)]
          rcases List.mem_cons.mp hr with rfl | hr
          · exact hx _ (List.getLast_mem (by simp))
          · exact ih hxs (by simp) r hr

lemma processCsvLines_cons (header : List String)
    (rows : List (List String)) :
    processCsvLines (header :: rows)
      = match (sortByTimestamp (rows.map parseRow)).getLast? with
        | none => none
        | some last =>
            some (header ++ ADDED_FIELDS,
              groupByCorrelationId (sortByTimestamp (rows.map parseRow)),
              last.timestamp) := rfl

lemma retrieveLogs_def (fetchLines : Nat → List (List String))
    (writeOk : String → Bool) (dir : TargetDir) :
    retrieveLogs fetchLines writeOk dir
      = if (fetchLines (getAdvancedTimestamp
            (loadLastIncludedTimestamp dir))).isEmpty then Except.ok dir
        else
          match processCsvLines (fetchLines (getAdvancedTimestamp
              (loadLastIncludedTimestamp dir))) with
          | none => Except.error dir
          | some (_fields, groupedLines, lastTimestamp) =>
              match storeLogsAsCsv writeOk dir
                  (addConsent (addApproach groupedLines)) with
              | Except.error e => Except.error e
              | Except.ok dir2 =>
                  Except.ok { dir2 with watermark := some lastTimestamp } :=
  rfl

/-- C4 (corrected): the timestamp `_process_csv_lines` returns beside the
grouping is the greatest timestamp of ALL parsed data rows — the
chronologically last row of the sorted input, including rows that the
grouping then drops for an empty correlation id. -/
theorem c4_last_timestamp (header : List String)
    (rows : List (List String)) (hne : rows ≠ []) :
    ∃ fields groupedLines lastTimestamp,
      processCsvLines (header :: rows)
        = some (fields, groupedLines, lastTimestamp)
      ∧ (∃ r, r ∈ rows.map parseRow ∧ r.timestamp = lastTimestamp)
      ∧ (∀ r ∈ rows.map parseRow, tsLe r.timestamp lastTimestamp = true) := by
  have hperm := sortByTimestamp_perm (rows.map parseRow)
  have hsne : sortByTimestamp (rows.map parseRow) ≠ [] := by
    intro hcon
    apply hne
    have hlen := hperm.length_eq
    rw [hcon] at hlen
    simp only [List.length_nil, List.length_map] at hlen
    exact List.length_eq_zero.mp hlen.symm
  refine ⟨header ++ ADDED_FIELDS,
    groupByCorrelationId (sortByTimestamp (rows.map parseRow)),
    ((sortByTimestamp (rows.map parseRow)).getLast hsne).timestamp,
    ?_, ?_, ?_⟩
  · rw [processCsvLines_cons, List.getLast?_eq_getLast _ hsne]
  · exact ⟨(sortByTimestamp (rows.map parseRow)).getLast hsne,
      hperm.mem_iff.mp (List.getLast_mem hsne), rfl⟩
  · intro r hr
    exact pairwise_le_getLast _ (sortByTimestamp_sorted _) hsne r
      (hperm.mem_iff.mpr hr)

/-- C4 witness: on the concrete fetched lines the returned timestamp is
`300`, which bounds the timestamp of every parsed row. -/
theorem c4_witness :
    processCsvLines exampleLines
      = some (["correlationId", "timestamp", "message", "approach",
               "consent"],
              [("A", [mkRecord "A" "100" "start", mkRecord "A" "300" "end"]),
               ("B", [mkRecord "B" "200" "mid"])], "300")
    ∧ tsLe "100" "300" = true ∧ tsLe "300" "300" = true
    ∧ tsLe "200" "300" = true := by
  obtain ⟨fields, g, ts, hp, hmem, hall⟩ :=
    c4_last_timestamp ["correlationId", "timestamp", "message"]
      [["A", "100", "start"], ["A", "300", "end"], ["B", "200", "mid"]]
      (by decide)
  have hconc : processCsvLines exampleLines
      = some (["correlationId", "timestamp", "message", "approach",
               "consent"],
              [("A", [mkRecord "A" "100" "start", mkRecord "A" "300" "end"]),
               ("B", [mkRecord "B" "200" "mid"])], "300") := by decide
  have heq := (Eq.trans hp.symm hconc : (some (fields, g, ts) :
      Option (List String × List (String × List Record) × String)) = _)
  simp only [Option.some.injEq, Prod.mk.injEq] at heq
  have hts : ts = "300" := heq.2.2
  refine ⟨hconc, ?_, ?_, ?_⟩
  · have h1 := hall (parseRow ["A", "100", "start"]) (by decide)
    rw [hts] at h1
    exact h1
  · have h1 := hall (parseRow ["A", "300", "end"]) (by decide)
    rw [hts] at h1
    exact h1
  · have h1 := hall (parseRow ["B", "200", "mid"]) (by decide)
    rw [hts] at h1
    exact h1

/-- C4 counterexample: the chronologically last row has an empty
correlation id and is dropped by the grouper — every retained record has
timestamp `100` — yet the returned timestamp is the dropped row's `200`,
against the claim that dropped records do not determine it. -/
theorem c4_counterexample :
    processCsvLines
        [["correlationId", "timestamp", "message"],
         ["A", "100", "m"], ["", "200", "m"]]
      = some (["correlationId", "timestamp", "message", "approach",
               "consent"],
              [("A", [mkRecord "A" "100" "m"])], "200")
    ∧ ("200" : String) ≠ "100" := by
  refine ⟨by decide, by decide⟩

/-- C5 (corrected): a successful run with data stores the raw timestamp of
the chronologically last parsed record as the watermark, with no advance;
the one-millisecond advance is applied to the loaded value at the start of
the next run, which is what makes the next fetch exclusive. -/
theorem c5_stored_watermark (fetchLines : Nat → List (List String))
    (writeOk : String → Bool) (dir dir' : TargetDir)
    (fields : List String) (groupedLines : List (String × List Record))
    (lastTimestamp : String)
    (hp : processCsvLines (fetchLines (getAdvancedTimestamp
        (loadLastIncludedTimestamp dir)))
      = some (fields, groupedLines, lastTimestamp))
    (hok : retrieveLogs fetchLines writeOk dir = Except.ok dir') :
    dir'.watermark = some lastTimestamp := by
  rw [retrieveLogs_def] at hok
  cases hemp : (fetchLines (getAdvancedTimestamp
      (loadLastIncludedTimestamp dir))).isEmpty with
  | true =>
      rw [List.isEmpty_iff.mp hemp] at hp
      exact Option.noConfusion hp
  | false =>
      rw [hemp] at hok
      simp only [Bool.false_eq_true, if_false, hp] at hok
      cases hst : storeLogsAsCsv writeOk dir
          (addConsent (addApproach groupedLines)) with
      | error e =>
          rw [hst] at hok
          exact Except.noConfusion hok
      | ok dir2 =>
          rw [hst] at hok
          injection hok with h
          rw [← h]

/-- C5 witness: the concrete successful run stores exactly `300`. -/
theorem c5_witness :
    (TargetDir.mk (some "300")
        [("100_A.csv", [naRec "A" "100" "start", naRec "A" "300" "end"]),
         ("200_B.csv", [naRec "B" "200" "mid"])]).watermark
      = some "300" :=
  c5_stored_watermark (fun _ => exampleLines) (fun _ => true) emptyDir
    (TargetDir.mk (some "300")
      [("100_A.csv", [naRec "A" "100" "start", naRec "A" "300" "end"]),
       ("200_B.csv", [naRec "B" "200" "mid"])])
    ["correlationId", "timestamp", "message", "approach", "consent"]
    [("A", [mkRecord "A" "100" "start", mkRecord "A" "300" "end"]),
     ("B", [mkRecord "B" "200" "mid"])]
    "300" (by decide) rfl

/-- C5 counterexample: the run over `exampleLines` writes `300` — the raw
last timestamp — to the watermark file, while the value the claim demands,
`t3` advanced by one millisecond, renders as `301`. -/
theorem c5_counterexample :
    retrieveLogs (fun _ => exampleLines) (fun _ => true) emptyDir
      = Except.ok
          (TargetDir.mk (some "300")
            [("100_A.csv",
              [naRec "A" "100" "start", naRec "A" "300" "end"]),
             ("200_B.csv", [naRec "B" "200" "mid"])])
    ∧ timestampText (getAdvancedTimestamp (getDatetimeFromTimestamp "300"))
        = "301"
    ∧ ("300" : String) ≠ "301" := by
  refine ⟨rfl, by decide, by decide⟩

/-- C7: no premature watermark advance.  A run that aborts — in particular
one whose group-file write failed — leaves the watermark file with its
previous content, and a run that completes wrote one CSV file per labeled
group before the watermark was replaced. -/
theorem c7_watermark_after_files (fetchLines : Nat → List (List String))
    (writeOk : String → Bool) (dir : TargetDir) :
    (∀ dir', retrieveLogs fetchLines writeOk dir = Except.error dir' →
      dir'.watermark = dir.watermark)
    ∧ (∀ dir' fields groupedLines lastTimestamp,
        processCsvLines (fetchLines (getAdvancedTimestamp
            (loadLastIncludedTimestamp dir)))
          = some (fields, groupedLines, lastTimestamp) →
        retrieveLogs fetchLines writeOk dir = Except.ok dir' →
        ∀ p ∈ addConsent (addApproach groupedLines),
          (storeFilename p.1 p.2, p.2) ∈ dir'.csvFiles) := by
  constructor
  · intro dir' h
    rw [retrieveLogs_def] at h
    cases hemp : (fetchLines (getAdvancedTimestamp
        (loadLastIncludedTimestamp dir))).isEmpty with
    | true =>
        rw [hemp] at h
        simp only [if_true] at h
        exact Except.noConfusion h
    | false =>
        rw [hemp] at h
        simp only [Bool.false_eq_true, if_false] at h
        cases hp : processCsvLines (fetchLines (getAdvancedTimestamp
            (loadLastIncludedTimestamp dir))) with
        | none =>
            rw [hp] at h
            injection h with h1
            rw [← h1]
        | some tup =>
            obtain ⟨fields, groupedLines, lastTimestamp⟩ := tup
            simp only [hp] at h
            cases hst : storeLogsAsCsv writeOk dir
                (addConsent (addApproach groupedLines)) with
            | error e =>
                rw [hst] at h
                injection h with h1
                rw [← h1]
                exact storeLogsAsCsv_error_watermark _ _ _ _ hst
            | ok dir2 =>
                rw [hst] at h
                exact Except.noConfusion h
  · intro dir' fields groupedLines lastTimestamp hp hok
    rw [retrieveLogs_def] at hok
    cases hemp : (fetchLines (getAdvancedTimestamp
        (loadLastIncludedTimestamp dir))).isEmpty with
    | true =>
        rw [List.isEmpty_iff.mp hemp] at hp
        exact Option.noConfusion hp
    | false =>
        rw [hemp] at hok
        simp only [Bool.false_eq_true, if_false, hp] at hok
        cases hst : storeLogsAsCsv writeOk dir
            (addConsent (addApproach groupedLines)) with
        | error e =>
            rw [hst] at hok
            exact Except.noConfusion hok
        | ok dir2 =>
            rw [hst] at hok
            injection hok with h1
            intro p hmem
            have := (storeLogsAsCsv_ok _ _ _ _ hst).2.2 p hmem
            rw [← h1]
            exact this

/-- C7 witness: with a write oracle refusing every file the concrete run
aborts with the watermark untouched, and with a write oracle accepting
every file the completed run's state holds the `A` group's file. -/
theorem c7_witness :
    emptyDir.watermark = emptyDir.watermark
    ∧ (storeFilename "A" [naRec "A" "100" "start", naRec "A" "300" "end"],
        [naRec "A" "100" "start", naRec "A" "300" "end"])
      ∈ (TargetDir.mk (some "300")
          [("100_A.csv", [naRec "A" "100" "start", naRec "A" "300" "end"]),
           ("200_B.csv", [naRec "B" "200" "mid"])]).csvFiles := by
  constructor
  · exact (c7_watermark_after_files (fun _ => exampleLines) (fun _ => false)
      emptyDir).1 emptyDir rfl
  · exact (c7_watermark_after_files (fun _ => exampleLines) (fun _ => true)
      emptyDir).2
      (TargetDir.mk (some "300")
        [("100_A.csv", [naRec "A" "100" "start", naRec "A" "300" "end"]),
         ("200_B.csv", [naRec "B" "200" "mid"])])
      ["correlationId", "timestamp", "message", "approach", "consent"]
      [("A", [mkRecord "A" "100" "start", mkRecord "A" "300" "end"]),
       ("B", [mkRecord "B" "200" "mid"])]
      "300" (by decide) rfl
      ("A", [naRec "A" "100" "start", naRec "A" "300" "end"]) (by decide)

/-- C9: a fetch returning lines without any data record aborts the run
(`sorted_list[-1]` raises `IndexError`), leaving the state unchanged; the
successful no-op path is taken exactly when the fetched line list is
entirely empty. -/
theorem c9_header_only_aborts (fetchLines : Nat → List (List String))
    (writeOk : String → Bool) (dir : TargetDir) :
    (∀ header, fetchLines (getAdvancedTimestamp
        (loadLastIncludedTimestamp dir)) = [header] →
      retrieveLogs fetchLines writeOk dir = Except.error dir)
    ∧ (fetchLines (getAdvancedTimestamp
        (loadLastIncludedTimestamp dir)) = [] →
      retrieveLogs fetchLines writeOk dir = Except.ok dir) := by
  constructor
  · intro header h
    rw [retrieveLogs_def, h]
    rfl
  · intro h
    rw [retrieveLogs_def, h]
    rfl

/-- C9 witness: a header-only fetch aborts; an empty fetch is a successful
no-op. -/
theorem c9_witness :
    retrieveLogs (fun _ => [["correlationId", "timestamp", "message"]])
        (fun _ => true) emptyDir = Except.error emptyDir
    ∧ retrieveLogs (fun _ => ([] : List (List String))) (fun _ => true)
        emptyDir = Except.ok emptyDir :=
  ⟨(c9_header_only_aborts (fun _ => [["correlationId", "timestamp",
      "message"]]) (fun _ => true) emptyDir).1
      ["correlationId", "timestamp", "message"] rfl,
   (c9_header_only_aborts (fun _ => ([] : List (List String)))
      (fun _ => true) emptyDir).2 rfl⟩

/-- C8: a group's filename is its first record's timestamp, an underscore,
the correlation id and the `.csv` extension, with every ':' — wherever it
occurs, the timestamp part included — replaced by '_'; it is a function of
the first record's timestamp and the id alone, so the identical record set
yields the byte-identical filename on any run, and no ':' survives. -/
theorem c8_filename (correlationId : String) (r : Record)
    (rest rest' : List Record) :
    storeFilename correlationId (r :: rest)
      = sanitizeFilename (r.timestamp ++ "_" ++ correlationId ++ ".csv")
    ∧ storeFilename correlationId (r :: rest)
      = storeFilename correlationId (r :: rest')
    ∧ ':' ∉ (storeFilename correlationId (r :: rest)).data := by
  refine ⟨rfl, rfl, ?_⟩
  intro hmem
  unfold storeFilename sanitizeFilename at hmem
  rcases List.mem_map.mp hmem with ⟨c, hc, hceq⟩
  by_cases h : c = ':'
  · rw [if_pos h] at hceq
    exact absurd hceq (by decide)
  · rw [if_neg h] at hceq
    exact h hceq

/-- C10: the labeling steps only add their own field.  Projecting every
record of every group to its original fields plus the respective other
derived field, `_add_approach` and `_add_consent` are the identity: group
keys, group order, record order and all pre-existing field values are
untouched, and neither step writes the other's field. -/
theorem c10_labeling_frame (g : List (String × List Record)) :
    (addApproach g).map
        (fun p => (p.1, p.2.map (fun r => (baseFields r, r.consent))))
      = g.map (fun p => (p.1, p.2.map (fun r => (baseFields r, r.consent))))
    ∧ (addConsent g).map
        (fun p => (p.1, p.2.map (fun r => (baseFields r, r.approach))))
      = g.map
        (fun p => (p.1, p.2.map (fun r => (baseFields r, r.approach)))) := by
  constructor <;>
    simp [addApproach, addConsent, List.map_map, baseFields, Function.comp]

/-- C8 witness: a concrete correlation id and timestamp holding ':'
characters; the filename is the sanitized concatenation and it does not
depend on the records after the first. -/
theorem c8_witness :
    storeFilename "sess:42" [mkRecord "sess:42" "10:00" "m"]
      = sanitizeFilename ("10:00" ++ "_" ++ "sess:42" ++ ".csv")
    ∧ storeFilename "sess:42" [mkRecord "sess:42" "10:00" "m"]
      = storeFilename "sess:42"
          [mkRecord "sess:42" "10:00" "m", mkRecord "sess:42" "11:00" "m2"] :=
  ⟨(c8_filename "sess:42" (mkRecord "sess:42" "10:00" "m") [] []).1,
   (c8_filename "sess:42" (mkRecord "sess:42" "10:00" "m") []
      [mkRecord "sess:42" "11:00" "m2"]).2.1⟩
